import Mathlib

/-!
Shallow embedding of the OpenAlex citation-graph research subsystem
(`codes/agent_openalex.py` and `codes/project_repository.py`) together with
proofs about its key algorithms: graph-key assignment, citation-graph
construction and edge deduplication, the cache reuse policy, cursor
pagination with a citation cap, the LLM relevance agent's heuristic
fallback, and the project repository's persistence and merge logic.

Python dictionaries are modelled as insertion-ordered association lists
(`PyDict`), Python lists as Lean lists, and machine strings as Lean
`String`.  Unicode NFKD normalization and combining-character stripping
(from the standard `unicodedata` module, not repository code) are modelled
as the identity, which is exact on ASCII input; likewise Python's
`str.isalpha`/`str.isalnum` are modelled by the ASCII classifiers
`Char.isAlpha`/`Char.isAlphanum`, exact on ASCII input.  All concrete
inputs used in theorems below are ASCII.
-/

/-- Insertion-ordered association list modelling a Python `dict`:
iteration order is insertion order, updating an existing key keeps its
position, inserting a fresh key appends at the end. -/
abbrev PyDict (κ α : Type) := List (κ × α)

namespace PyDict

variable {κ α : Type} [DecidableEq κ]

/-- `d[k]` lookup returning the first (hence unique, for dict-built lists)
binding of `k`. -/
def get? : PyDict κ α → κ → Option α
  | [], _ => none
  | (k', v) :: d, k => if k' = k then some v else get? d k

/-- `d[k] = v`: replace in place if the key exists, else append. -/
def insert : PyDict κ α → κ → α → PyDict κ α
  | [], k, v => [(k, v)]
  | (k', v') :: d, k, v => if k' = k then (k, v) :: d else (k', v') :: insert d k v

/-- `d.setdefault(k, v)`: keep an existing binding, else append `(k, v)`. -/
def setdefault : PyDict κ α → κ → α → PyDict κ α
  | [], k, v => [(k, v)]
  | (k', v') :: d, k, v => if k' = k then (k', v') :: d else (k', v') :: setdefault d k v

/-- `list(d.keys())`. -/
def keys (d : PyDict κ α) : List κ := d.map Prod.fst

/-- `d.get(k, fallback)`. -/
def getD (d : PyDict κ α) (k : κ) (v : α) : α := (d.get? k).getD v

theorem get?_insert_self (d : PyDict κ α) (k : κ) (v : α) :
    (d.insert k v).get? k = some v := by
  induction d with
  | nil => simp [insert, get?]
  | cons p d ih =>
    obtain ⟨k', v'⟩ := p
    by_cases h : k' = k <;> simp [insert, get?, h, ih]

theorem get?_insert_ne (d : PyDict κ α) (k k' : κ) (v : α) (h : k ≠ k') :
    (d.insert k v).get? k' = d.get? k' := by
  induction d with
  | nil => simp [insert, get?, h]
  | cons p d ih =>
    obtain ⟨k₀, v₀⟩ := p
    by_cases h₀ : k₀ = k
    · subst h₀; simp [insert, get?, h]
    · simp [insert, get?, h₀, ih]

theorem get?_setdefault_self (d : PyDict κ α) (k : κ) (v : α) :
    (d.setdefault k v).get? k = some ((d.get? k).getD v) := by
  induction d with
  | nil => simp [setdefault, get?]
  | cons p d ih =>
    obtain ⟨k₀, v₀⟩ := p
    by_cases h₀ : k₀ = k <;> simp [setdefault, get?, h₀, ih]

theorem get?_setdefault_ne (d : PyDict κ α) (k k' : κ) (v : α) (h : k ≠ k') :
    (d.setdefault k v).get? k' = d.get? k' := by
  induction d with
  | nil => simp [setdefault, get?, h]
  | cons p d ih =>
    obtain ⟨k₀, v₀⟩ := p
    by_cases h₀ : k₀ = k
    · subst h₀; simp [setdefault, get?, h]
    · simp [setdefault, get?, h₀, ih]

omit [DecidableEq κ] in
theorem keys_cons (k₀ : κ) (v₀ : α) (d : PyDict κ α) :
    keys ((k₀, v₀) :: d) = k₀ :: keys d := rfl

theorem keys_insert_of_mem (d : PyDict κ α) (k : κ) (v : α) (h : k ∈ d.keys) :
    (d.insert k v).keys = d.keys := by
  induction d with
  | nil => simp [keys] at h
  | cons p d ih =>
    obtain ⟨k₀, v₀⟩ := p
    rw [keys_cons] at h
    by_cases h₀ : k₀ = k
    · subst h₀; simp [insert, keys]
    · rcases List.mem_cons.mp h with h | h
      · exact absurd h.symm h₀
      · show keys (insert ((k₀, v₀) :: d) k v) = _
        simp only [insert, if_neg h₀]
        rw [keys_cons, keys_cons, ih h]

theorem keys_insert_of_not_mem (d : PyDict κ α) (k : κ) (v : α) (h : k ∉ d.keys) :
    (d.insert k v).keys = d.keys ++ [k] := by
  induction d with
  | nil => simp [insert, keys]
  | cons p d ih =>
    obtain ⟨k₀, v₀⟩ := p
    rw [keys_cons, List.mem_cons] at h
    push_neg at h
    show keys (insert ((k₀, v₀) :: d) k v) = _
    simp only [insert, if_neg (Ne.symm h.1)]
    rw [keys_cons, keys_cons, ih h.2]
    rfl

theorem mem_keys_insert_self (d : PyDict κ α) (k : κ) (v : α) :
    k ∈ (d.insert k v).keys := by
  by_cases h : k ∈ d.keys
  · rw [keys_insert_of_mem d k v h]; exact h
  · rw [keys_insert_of_not_mem d k v h]; simp

theorem keys_nodup_insert (d : PyDict κ α) (k : κ) (v : α) (h : d.keys.Nodup) :
    (d.insert k v).keys.Nodup := by
  by_cases hm : k ∈ d.keys
  · rw [keys_insert_of_mem d k v hm]; exact h
  · rw [keys_insert_of_not_mem d k v hm]
    simpa [List.nodup_append] using ⟨h, hm⟩

theorem get?_isSome_of_isSome (d : PyDict κ α) (k k' : κ) (v : α)
    (h : (d.get? k').isSome) : ((d.insert k v).get? k').isSome := by
  by_cases hk : k = k'
  · subst hk; simp [get?_insert_self]
  · rwa [get?_insert_ne d k k' v hk]

theorem get?_insert_self_isSome (d : PyDict κ α) (k : κ) (v : α) :
    ((d.insert k v).get? k).isSome := by
  simp [get?_insert_self]

end PyDict

/-! ### First-occurrence deduplication

`dict.fromkeys(edges)` in `CitationGraphBuilder.build`, and the
`seen_edges` set in `_merge_graphs`, both keep the first occurrence of
every element and drop later duplicates, preserving order.  `dedup_first_aux`
models the seen-set loop; `spec_dedup` is a second definition written from
the specification's words ("first occurrence wins; later duplicates
dropped, not reordered"): keep the head, drop its later duplicates,
recurse.  The two are proved equal. -/

/-- Seen-set loop: skip elements already seen, otherwise emit and remember. -/
def dedup_first_aux {α : Type} [DecidableEq α] (seen : List α) : List α → List α
  | [] => []
  | x :: l => if x ∈ seen then dedup_first_aux seen l else x :: dedup_first_aux (x :: seen) l

/-- First-occurrence deduplication, as performed by `dict.fromkeys` and the
`seen_edges` loop. -/
def dedup_keep_first {α : Type} [DecidableEq α] (l : List α) : List α :=
  dedup_first_aux [] l

/-- Specification-side deduplication, from the spec's words: the first
occurrence of each element is kept in place and every later duplicate is
dropped, with no reordering. -/
def spec_dedup {α : Type} [DecidableEq α] : List α → List α
  | [] => []
  | x :: l => x :: spec_dedup (l.filter (fun y => y ≠ x))
termination_by l => l.length
decreasing_by
  simp only [List.length_cons]
  exact Nat.lt_succ_of_le (List.length_filter_le _ _)

theorem dedup_first_aux_congr {α : Type} [DecidableEq α] (l : List α) :
    ∀ s₁ s₂ : List α, (∀ x, x ∈ s₁ ↔ x ∈ s₂) →
    dedup_first_aux s₁ l = dedup_first_aux s₂ l := by
  induction l with
  | nil => intro _ _ _; rfl
  | cons x l ih =>
    intro s₁ s₂ h
    by_cases hx : x ∈ s₁
    · simp [dedup_first_aux, hx, (h x).mp hx, ih s₁ s₂ h]
    · have hx₂ : x ∉ s₂ := fun hc => hx ((h x).mpr hc)
      simp only [dedup_first_aux, if_neg hx, if_neg hx₂]
      congr 1
      refine ih _ _ ?_
      intro y; simp [h y]

theorem dedup_first_aux_eq_spec {α : Type} [DecidableEq α] :
    ∀ (l : List α) (seen : List α),
    dedup_first_aux seen l = spec_dedup (l.filter (fun y => decide (y ∉ seen)))
  | [], seen => by simp [dedup_first_aux, spec_dedup]
  | x :: l, seen => by
    by_cases hx : x ∈ seen
    · have h1 : dedup_first_aux seen (x :: l) = dedup_first_aux seen l := by
        simp [dedup_first_aux, hx]
      have h2 : (x :: l).filter (fun y => decide (y ∉ seen))
          = l.filter (fun y => decide (y ∉ seen)) := by
        simp [List.filter_cons, hx]
      rw [h1, h2]
      exact dedup_first_aux_eq_spec l seen
    · have h1 : dedup_first_aux seen (x :: l)
          = x :: dedup_first_aux (x :: seen) l := by
        simp [dedup_first_aux, hx]
      have h2 : (x :: l).filter (fun y => decide (y ∉ seen))
          = x :: l.filter (fun y => decide (y ∉ seen)) := by
        simp [List.filter_cons, hx]
      rw [h1, h2]
      simp only [spec_dedup]
      congr 1
      rw [dedup_first_aux_eq_spec l (x :: seen), List.filter_filter]
      congr 1
      refine List.filter_congr ?_
      intro y _
      by_cases hy : y = x <;> by_cases hys : y ∈ seen <;> simp [hy, hys]
termination_by l => l.length
decreasing_by
  all_goals simp only [List.length_cons]
  all_goals exact Nat.lt_succ_self _

theorem dedup_keep_first_eq_spec {α : Type} [DecidableEq α] (l : List α) :
    dedup_keep_first l = spec_dedup l := by
  rw [dedup_keep_first, dedup_first_aux_eq_spec l []]
  congr 1
  simp

theorem mem_spec_dedup {α : Type} [DecidableEq α] :
    ∀ (l : List α) (x : α), x ∈ spec_dedup l ↔ x ∈ l
  | [], x => by simp [spec_dedup]
  | y :: l, x => by
    by_cases hxy : x = y
    · simp [spec_dedup, hxy]
    · simp only [spec_dedup, List.mem_cons]
      rw [mem_spec_dedup (l.filter (fun z => decide (z ≠ y))) x]
      simp [hxy]
termination_by l => l.length
decreasing_by
  simp only [List.length_cons]
  exact Nat.lt_succ_of_le (List.length_filter_le _ _)

theorem nodup_spec_dedup {α : Type} [DecidableEq α] :
    ∀ l : List α, (spec_dedup l).Nodup
  | [] => by simp [spec_dedup]
  | x :: l => by
    simp only [spec_dedup, List.nodup_cons]
    refine ⟨?_, nodup_spec_dedup (l.filter (fun y => decide (y ≠ x)))⟩
    intro hmem
    rw [mem_spec_dedup] at hmem
    rw [List.mem_filter] at hmem
    simp at hmem
termination_by l => l.length
decreasing_by
  simp only [List.length_cons]
  exact Nat.lt_succ_of_le (List.length_filter_le _ _)

/-! ### String helpers

Character-level models of the Python string operations used by the
subsystem.  Python's `str.strip`/`str.split()` (whitespace variants),
`str.lower`, `%`-formatting and regex character-class substitutions are
modelled over `List Char`.  `unicodedata.normalize("NFKD", s)` and the
combining-character strip are the identity on ASCII strings and are
modelled as the identity (the Unicode tables are data external to the
repository); `str.isalpha`/`str.isalnum` are modelled by the ASCII
classifiers, exact on ASCII input. -/

/-- Single-pass accumulator loop behind `runs_of`: `cur` is the current
run, reversed. -/
def runs_of_go (p : Char → Bool) (cur : List Char) : List Char → List String
  | [] => if cur = [] then [] else [String.mk cur.reverse]
  | c :: cs =>
    if p c then runs_of_go p (c :: cur) cs
    else if cur = [] then runs_of_go p [] cs
    else String.mk cur.reverse :: runs_of_go p [] cs

/-- Maximal runs of characters satisfying `p`, as strings, in order.
Models both `str.split()` (with `p` = not-whitespace) and the regex
`findall(r"[a-z0-9]+", s)` (with `p` = lowercase alphanumeric), as well as
the segment split underlying `re.sub(<char class>+, repl, s)`. -/
def runs_of (p : Char → Bool) (l : List Char) : List String :=
  runs_of_go p [] l

/-- `s.strip()` stripping characters satisfying `p` from both ends. -/
def strip_list (p : Char → Bool) (l : List Char) : List Char :=
  ((l.dropWhile p).reverse.dropWhile p).reverse

/-- Python `str.strip()` (whitespace). -/
def py_strip (s : String) : String := String.mk (strip_list Char.isWhitespace s.data)

/-- Python `str.split()` — maximal runs of non-whitespace. -/
def py_split_ws (s : String) : List String :=
  runs_of (fun c => !c.isWhitespace) s.data

/-- Python `str.lower()` (ASCII case folding, exact on ASCII input). -/
def py_lower (s : String) : String := String.mk (s.data.map Char.toLower)

/-- `name[:1].upper() + name[1:]`. -/
def capitalize_first : List Char → List Char
  | [] => []
  | c :: cs => Char.toUpper c :: cs

/-- A single-quote character as a string (used inside message literals). -/
def squote : String := String.mk [Char.ofNat 39]

/-- `[a-z0-9]` (the token class of the heuristic agent's regex). -/
def is_token_char (c : Char) : Bool :=
  (97 ≤ c.toNat && c.toNat ≤ 122) || (48 ≤ c.toNat && c.toNat ≤ 57)

/-- Code-point lexicographic strict order on strings (Python `<`). -/
def lex_lt : List Char → List Char → Bool
  | [], [] => false
  | [], _ :: _ => true
  | _ :: _, [] => false
  | a :: as, b :: bs =>
    if a.toNat < b.toNat then true
    else if a.toNat = b.toNat then lex_lt as bs
    else false

/-- Insert into an ascending list (Python `sorted`, via insertion sort). -/
def insert_sorted (a : String) : List String → List String
  | [] => [a]
  | b :: l => if lex_lt b.data a.data then b :: insert_sorted a l else a :: b :: l

/-- Python `sorted` on strings (ascending code-point order). -/
def sort_strings (l : List String) : List String := l.foldr insert_sorted []

/-! ### Data model (`agent_openalex.py`) -/

/-- `Relation = Literal["reference", "citation"]`. -/
inductive Relation
  | reference
  | citation
deriving DecidableEq, Inhabited

/-- `Verdict = Literal["accepted", "rejected"]`. -/
inductive Verdict
  | accepted
  | rejected
deriving DecidableEq, Inhabited

/-- `@dataclass Work`. -/
structure Work where
  openalex_id : String
  title : String
  publication_year : Option Int
  authors : List String
  referenced_works : List String
  abstract : Option String := none
  primary_topic : Option String := none
deriving DecidableEq, Inhabited

/-- `@dataclass WorkDecision`. -/
structure WorkDecision where
  work : Work
  verdict : Verdict
  justification : String
  relation : Relation
  graph_key : String := ""
deriving DecidableEq, Inhabited

/-- Role of a graph node: `Literal["seed", "reference", "citation"]`. -/
inductive Role
  | seed
  | reference
  | citation
deriving DecidableEq, Inhabited

/-- Verdict of a graph node: `Literal["accepted", "rejected", "seed"]`. -/
inductive NodeVerdict
  | accepted
  | rejected
  | seed
deriving DecidableEq, Inhabited

/-- `@dataclass GraphNode`. -/
structure GraphNode where
  work_id : String
  title : String
  role : Role
  verdict : NodeVerdict
deriving DecidableEq, Inhabited

/-- `@dataclass CitationGraph`. -/
structure CitationGraph where
  seed_key : String
  nodes : PyDict String GraphNode
  edges : List (String × String)
deriving DecidableEq, Inhabited

/-- `@dataclass OpenAlexResearchResult`. -/
structure OpenAlexResearchResult where
  seed : Work
  theme : String
  accepted : List WorkDecision
  rejected : List WorkDecision
  graph : CitationGraph
deriving DecidableEq, Inhabited

/-- `node.role = decision.relation` (Python assigns the literal through). -/
def Relation.toRole : Relation → Role
  | .reference => .reference
  | .citation => .citation

/-- `node.verdict = decision.verdict` (Python assigns the literal through). -/
def Verdict.toNodeVerdict : Verdict → NodeVerdict
  | .accepted => .accepted
  | .rejected => .rejected

/-! ### Graph key generator (`GraphKeyGenerator`) -/

/-- `GraphKeyGenerator._suffix`: bijective base-26 lowercase suffix for
`value >= 1`; the loop appends least-significant letters first and
reverses, modelled here by accumulating onto the front.  `fuel` bounds the
iteration count; `value` itself always suffices (the counter strictly
decreases), so `key_suffix` passes `value` as fuel. -/
def suffix_aux (fuel n : Nat) (acc : List Char) : List Char :=
  match n, fuel with
  | 0, _ => acc
  | _ + 1, 0 => acc
  | m + 1, fuel + 1 => suffix_aux fuel (m / 26) (Char.ofNat (97 + m % 26) :: acc)

/-- `GraphKeyGenerator._suffix(value)`. -/
def key_suffix (value : Nat) : String := String.mk (suffix_aux value value [])

/-- The suffix scheme as the spec words it: a bijective base-26 counting
scheme over `a..z`, so the `n`-th suffix (`n >= 1`) is the single letter
`a`+`n`-1 for `n <= 26` and otherwise the scheme applied to
`(n-1)/26` followed by the letter for `(n-1)%26`. -/
def spec_bijective_base26 (n : Nat) : String :=
  if n ≤ 26 then String.mk [Char.ofNat (96 + n)]
  else spec_bijective_base26 ((n - 1) / 26) ++ String.mk [Char.ofNat (97 + (n - 1) % 26)]
termination_by n
decreasing_by
  rename_i h
  push_neg at h
  have h1 : (n - 1) / 26 ≤ n - 1 := Nat.div_le_self _ _
  omega

/-- `GraphKeyGenerator._last_name_from_authors`: the final
whitespace-separated segment of the first author's display name, kept to
its alphabetic characters, first letter upper-cased. -/
def last_name_from_authors : List String → String
  | [] => ""
  | a :: _ =>
    let first_author := py_strip a
    if first_author = "" then ""
    else
      let last_segment := (py_split_ws first_author).getLastD ""
      let ascii_name := last_segment.data.filter Char.isAlpha
      if ascii_name = [] then ""
      else String.mk (capitalize_first ascii_name)

/-- Year rendering used by the base key: the year's decimal string, or the
literal `0000` when absent. -/
def year_string : Option Int → String
  | some y => toString y
  | none => "0000"

/-- `re.sub(r"[^A-Za-z0-9]", "", ...)` on the work identifier, with the
literal `Work` fallback. -/
def id_fallback (w : Work) : String :=
  let sanitized := String.mk (w.openalex_id.data.filter Char.isAlphanum)
  if sanitized = "" then "Work" else sanitized

/-- `GraphKeyGenerator._base_key`. -/
def base_key (w : Work) : String :=
  let last_name := last_name_from_authors w.authors
  if last_name ≠ "" then last_name ++ year_string w.publication_year
  else id_fallback w

/-- One step of `GraphKeyGenerator.assign_keys`' loop: look up the base
key's prior count, derive the key, bump the count, record the key. -/
def assign_step (acc : PyDict String String × PyDict String Nat) (w : Work) :
    PyDict String String × PyDict String Nat :=
  let base := base_key w
  let count := acc.2.getD base 0
  let key := if count = 0 then base else base ++ key_suffix count
  (acc.1.insert w.openalex_id key, acc.2.insert base (count + 1))

/-- `GraphKeyGenerator.assign_keys`. -/
def assign_keys (works : List Work) : PyDict String String :=
  (works.foldl assign_step ([], [])).1

/-! ### Citation graph builder (`CitationGraphBuilder.build`) -/

/-- The node a decision contributes: `role` is the decision's relation and
`verdict` the decision's verdict. -/
def decision_node (d : WorkDecision) : GraphNode :=
  ⟨d.work.openalex_id, d.work.title, d.relation.toRole, d.verdict.toNodeVerdict⟩

/-- The edge a decision contributes: `seed -> reference` for a reference of
the seed, `citation -> seed` for a work citing the seed. -/
def decision_edge (seed_key : String) (d : WorkDecision) : String × String :=
  match d.relation with
  | .reference => (seed_key, d.graph_key)
  | .citation => (d.graph_key, seed_key)

/-- The raw (pre-deduplication) edge list of a build, in decision order. -/
def raw_edges (seed_key : String) (decisions : List WorkDecision) :
    List (String × String) :=
  decisions.map (decision_edge seed_key)

/-- One loop iteration of `CitationGraphBuilder.build`: insert the
decision's node under its graph key and append its edge. -/
def build_step (seed_key : String)
    (acc : PyDict String GraphNode × List (String × String)) (d : WorkDecision) :
    PyDict String GraphNode × List (String × String) :=
  (acc.1.insert d.graph_key (decision_node d), acc.2 ++ [decision_edge seed_key d])

/-- `CitationGraphBuilder.build`.  `keys[seed.openalex_id]` raises a
`KeyError` when the seed has no assigned key; that failure is modelled by
`none`. -/
def build (seed : Work) (decisions : List WorkDecision)
    (keys : PyDict String String) : Option CitationGraph :=
  match keys.get? seed.openalex_id with
  | none => none
  | some seed_key =>
    let init_nodes : PyDict String GraphNode :=
      PyDict.insert [] seed_key ⟨seed.openalex_id, seed.title, .seed, .seed⟩
    let r := decisions.foldl (build_step seed_key) (init_nodes, [])
    some ⟨seed_key, r.1, dedup_keep_first r.2⟩

/-! ### JSON cache and cached service (`JsonFileCache`, `CachedOpenAlexService`)

The cache file's in-memory image.  Lazy loading, the dirty flag and
`commit` (which serialize the same data to disk) do not affect the values
computed here and are not modelled; every mutating service path ends in a
`commit` of exactly this data. -/

/-- The `{"works": .., "references": .., "citations": ..}` cache document. -/
structure CacheData where
  works : PyDict String Work
  references : PyDict String (List String)
  citations : PyDict String (List String)
deriving DecidableEq, Inhabited

/-- `JsonFileCache.get_work`. -/
def get_work (c : CacheData) (work_id : String) : Option Work :=
  c.works.get? work_id

/-- `JsonFileCache.store_work`. -/
def store_work (c : CacheData) (w : Work) : CacheData :=
  { c with works := c.works.insert w.openalex_id w }

/-- `JsonFileCache.get_reference_ids` (`.get(seed_id, [])`). -/
def get_reference_ids (c : CacheData) (seed_id : String) : List String :=
  (c.references.get? seed_id).getD []

/-- `JsonFileCache.set_reference_ids`. -/
def set_reference_ids (c : CacheData) (seed_id : String) (ids : List String) :
    CacheData :=
  { c with references := c.references.insert seed_id ids }

/-- `JsonFileCache.get_citation_ids` (`.get(seed_id, [])`). -/
def get_citation_ids (c : CacheData) (seed_id : String) : List String :=
  (c.citations.get? seed_id).getD []

/-- `JsonFileCache.set_citation_ids`. -/
def set_citation_ids (c : CacheData) (seed_id : String) (ids : List String) :
    CacheData :=
  { c with citations := c.citations.insert seed_id ids }

/-- `CachedOpenAlexService._collect_from_cache`: resolve each id, dropping
unresolved ones. -/
def collect_from_cache (c : CacheData) (work_ids : List String) : List Work :=
  work_ids.filterMap (fun work_id => get_work c work_id)

/-- `CachedOpenAlexService._persist_relation` for `relation="references"`:
store every fetched work, then overwrite the seed's reference id-list. -/
def persist_references (c : CacheData) (work_id : String) (ws : List Work) :
    CacheData :=
  set_reference_ids (ws.foldl store_work c) work_id (ws.map Work.openalex_id)

/-- `CachedOpenAlexService._persist_relation` for `relation="citations"`. -/
def persist_citations (c : CacheData) (work_id : String) (ws : List Work) :
    CacheData :=
  set_citation_ids (ws.foldl store_work c) work_id (ws.map Work.openalex_id)

/-- `CachedOpenAlexService.get_references`.  The client is modelled as the
function `client` from a work id to the fetched works; the returned `Bool`
records whether the client was called.  Note the guard is Python
truthiness: an empty cached id-list takes the refetch path. -/
def get_references (client : String → List Work) (c : CacheData)
    (work_id : String) : List Work × CacheData × Bool :=
  let cached_ids := get_reference_ids c work_id
  if cached_ids ≠ [] then
    let works := collect_from_cache c cached_ids
    if works.length = cached_ids.length then (works, c, false)
    else
      let fetched := client work_id
      (fetched, persist_references c work_id fetched, true)
  else
    let fetched := client work_id
    (fetched, persist_references c work_id fetched, true)

/-- `CachedOpenAlexService.get_citations` (same policy as references). -/
def get_citations (client : String → List Work) (c : CacheData)
    (work_id : String) : List Work × CacheData × Bool :=
  let cached_ids := get_citation_ids c work_id
  if cached_ids ≠ [] then
    let works := collect_from_cache c cached_ids
    if works.length = cached_ids.length then (works, c, false)
    else
      let fetched := client work_id
      (fetched, persist_citations c work_id fetched, true)
  else
    let fetched := client work_id
    (fetched, persist_citations c work_id fetched, true)

/-! ### Cursor pagination (`OpenAlexHttpClient._iterate_paginated`)

The cursor-following protocol is modelled by the sequence of pages the
server would serve: the head page is the one returned for the current
cursor, the tail the pages reachable through `meta.next_cursor`; an
exhausted list models a missing next-cursor.  `remaining` is the Python
`remaining` counter (an `Int`, decremented after every yield, with the
`<= 0` check after the decrement). -/

/-- Result of consuming one page: the yielded items, and either a `stop`
(the cap was reached mid-page) or the counter to carry to the next page. -/
inductive PageResult (α : Type) where
  | stop (out : List α)
  | next (out : List α) (remaining : Option Int)

/-- Consume one page's `results` list, yielding each item and applying the
post-yield decrement-and-check. -/
def consume_page {α : Type} (remaining : Option Int) : List α → PageResult α
  | [] => .next [] remaining
  | x :: xs =>
    match remaining with
    | none =>
      match consume_page none xs with
      | .next out r => .next (x :: out) r
      | .stop out => .stop (x :: out)
    | some r =>
      if r - 1 ≤ 0 then .stop [x]
      else
        match consume_page (some (r - 1)) xs with
        | .next out r₂ => .next (x :: out) r₂
        | .stop out => .stop (x :: out)

/-- `OpenAlexHttpClient._iterate_paginated`: stop on an empty results page,
otherwise yield the page (honouring the cap) and follow the next cursor. -/
def iterate_paginated {α : Type} (limit : Option Int) : List (List α) → List α
  | [] => []
  | page :: rest =>
    if page.isEmpty then []
    else
      match consume_page limit page with
      | .stop out => out
      | .next out r => out ++ iterate_paginated r rest

/-- `OpenAlexHttpClient.fetch_citations`: paginate the reverse-citation
query with the configured `max_citations` cap; pages carry already-parsed
works. -/
def fetch_citations (max_citations : Option Int) (pages : List (List Work)) :
    List Work :=
  iterate_paginated max_citations pages

/-! ### Heuristic relevance agent (`SimpleThemeRelevanceAgent`) -/

/-- `SimpleThemeRelevanceAgent._extract_tokens`: lowercase, fold to ASCII
(identity on ASCII input), then take the maximal `[a-z0-9]` runs. -/
def extract_tokens (text : String) : List String :=
  runs_of is_token_char (py_lower text).data

/-- `SimpleThemeRelevanceAgent._prepare_theme`:
`sorted({token for token in tokens if token})`. -/
def prepare_theme (theme : String) : List String :=
  sort_strings (dedup_keep_first ((extract_tokens theme).filter (fun t => t ≠ "")))

/-- The prioritized `(field_name, content)` pairs scanned by
`_score_work`. -/
def search_fields (w : Work) : List (String × String) :=
  [("title", w.title), ("abstract", w.abstract.getD ""),
   ("primary_topic", w.primary_topic.getD "")]

/-- `SimpleThemeRelevanceAgent._score_work`: accept on the first field
containing any theme token (citing the first matching token and the field
name), else reject listing the expected tokens; with no tokens at all,
default to acceptance. -/
def score_work (w : Work) (tokens : List String) : Verdict × String :=
  if tokens = [] then
    (.accepted, "No theme keywords provided; defaulting to acceptance")
  else
    match (search_fields w).findSome? (fun p =>
      let content_tokens := extract_tokens p.2
      match tokens.filter (fun t => content_tokens.contains t) with
      | [] => none
      | keyword :: _ => some (p.1, keyword)) with
    | some (field_name, keyword) =>
      (.accepted, "Matches theme keyword " ++ squote ++ keyword ++ squote
        ++ " in " ++ field_name)
    | none =>
      (.rejected, "No theme keyword match found (expected one of: "
        ++ String.intercalate ", " tokens ++ ")")

/-- `SimpleThemeRelevanceAgent.evaluate`. -/
def simple_evaluate (works : List Work) (theme : String) (relation : Relation) :
    List WorkDecision :=
  let tokens := prepare_theme theme
  works.map (fun w =>
    let scored := score_work w tokens
    ⟨w, scored.1, scored.2, relation, ""⟩)

/-! ### LLM relevance agent (`LLMThemeRelevanceAgent`)

The HTTP exchange is external; what the code does with a response is
modelled by `LLMContent`: a reply whose (fence-stripped) content either
fails `json.loads` / field access, or yields `verdict` and `justification`
strings.  One classification attempt either fails in transport
(`Except.error`) or produces an `LLMContent`. -/

/-- The observable shape of one LLM reply's content. -/
inductive LLMContent
  | invalidJson
  | parsed (verdict : String) (justification : String)
deriving DecidableEq, Inhabited

/-- `LLMThemeRelevanceAgent._parse_llm_content`: require a verdict in
`{accepted, rejected}` (after strip/lower) and a non-empty stripped
justification. -/
def parse_llm_content : LLMContent → Except String (Verdict × String)
  | .invalidJson => .error "content is not valid JSON"
  | .parsed v j =>
    let verdict := py_lower (py_strip v)
    if verdict = "accepted" ∨ verdict = "rejected" then
      let justification := py_strip j
      if justification = "" then .error "LLM justification is empty"
      else .ok (if verdict = "accepted" then .accepted else .rejected, justification)
    else .error ("Unexpected verdict from LLM: " ++ verdict)

/-- `LLMThemeRelevanceAgent._classify_with_llm`: try each attempt in order
(`max_retries` of them); any transport or parse failure moves to the next
attempt; exhausting them raises `LLM classification failed`. -/
def classify_with_llm : List (Except String LLMContent) →
    Except String (Verdict × String)
  | [] => .error "LLM classification failed"
  | .error _ :: rest => classify_with_llm rest
  | .ok content :: rest =>
    match parse_llm_content content with
    | .ok r => .ok r
    | .error _ => classify_with_llm rest

/-- `LLMThemeRelevanceAgent.evaluate`, parameterized by the outcome
`classify` of `_classify_with_llm` per work: on failure fall back to the
heuristic decision for the same work (noting the error), or reject when no
heuristic decision exists. -/
def llm_evaluate (classify : Work → Except String (Verdict × String))
    (works : List Work) (theme : String) (relation : Relation) :
    List WorkDecision :=
  let fallback_decisions := simple_evaluate works theme relation
  let fallback_map : PyDict String WorkDecision :=
    fallback_decisions.foldl (fun m d => m.insert d.work.openalex_id d) []
  works.map (fun w =>
    match classify w with
    | .ok r => ⟨w, r.1, r.2, relation, ""⟩
    | .error e =>
      match fallback_map.get? w.openalex_id with
      | some fallback =>
        ⟨w, fallback.verdict,
          "Fallback to heuristic: " ++ fallback.justification
            ++ " (LLM error: " ++ e ++ ")", relation, ""⟩
      | none =>
        ⟨w, .rejected, "Unable to classify via LLM: " ++ e, relation, ""⟩)

/-! ### Project repository (`project_repository.py`)

The project directory's observable state: the manifest (if any) and the
files under `runs/`.  `OpenAlexResearchResult.to_dict`/`from_dict` are
called by the repository but are not part of the sources; the run payload
is therefore modelled from the spec (see `RunPayload`). -/

/-- `ProjectRepository.slugify`: NFKD-fold to ASCII (drop non-ASCII),
collapse runs of non-alphanumerics to single hyphens, strip hyphens,
lowercase, defaulting to `project`. -/
def slugify (name : String) : String :=
  let ascii_text := name.data.filter (fun c => c.toNat < 128)
  let hyphenated :=
    strip_list (fun c => c = '-')
      ((runs_of Char.isAlphanum ascii_text).foldr
        (fun seg acc => match acc with
          | [] => seg.data
          | _ => seg.data ++ '-' :: acc) [])
  let slug := py_lower (String.mk hyphenated)
  if slug = "" then "project" else slug

/-- `_sanitize_filename`: collapse runs outside `[a-zA-Z0-9_.-]` to single
underscores, strip leading/trailing `_` and `.`, defaulting to
`openalex_run`. -/
def sanitize_filename (identifier : String) : String :=
  let keep := fun c : Char => c.isAlphanum || c = '_' || c = '.' || c = '-'
  let replaced :=
    (runs_of keep identifier.data).foldr
      (fun seg acc => match acc with
        | [] => seg.data
        | _ => seg.data ++ '_' :: acc) []
  let bordered :=
    if identifier.data ≠ [] ∧ ¬ keep (identifier.data.headD ' ') then
      '_' :: replaced else replaced
  let bordered₂ :=
    if identifier.data ≠ [] ∧ ¬ keep (identifier.data.getLastD ' ') then
      bordered ++ ['_'] else bordered
  let safe := strip_list (fun c => c = '_' || c = '.') bordered₂
  if safe = [] then "openalex_run" else String.mk safe

/-- Modelled from the spec: `OpenAlexResearchResult.to_dict` and
`from_dict` are invoked by the repository but are absent from the sources;
the spec describes the run file as "the full result serialization plus
injected `project: {name, slug}` and `generated_at`".  The payload is
modelled as the result itself plus those injected fields. -/
structure RunPayload where
  result : OpenAlexResearchResult
  project_name : String
  project_slug : String
  generated_at : String
deriving DecidableEq, Inhabited

/-- One entry of the manifest's `runs` mapping. -/
structure RunEntry where
  seed_id : String
  run_file : String
  updated_at : String
deriving DecidableEq, Inhabited

/-- The `project.json` manifest.  Manifests written by `save_run` always
carry all four fields; the `setdefault` repairs for hand-edited manifests
are not modelled. -/
structure Manifest where
  name : String
  slug : String
  theme : String
  runs : PyDict String RunEntry
deriving DecidableEq, Inhabited

/-- The observable state of one project directory: the manifest file (if
present) and the files under `runs/`, keyed by file name. -/
structure ProjectDirState where
  manifest : Option Manifest
  run_files : PyDict String RunPayload
deriving DecidableEq, Inhabited

/-- The run file name: `_sanitize_filename(seed id) + ".json"`. -/
def run_filename (result : OpenAlexResearchResult) : String :=
  sanitize_filename result.seed.openalex_id ++ ".json"

/-- The theme-mismatch failure message (`ValueError`). -/
def theme_mismatch_message (stored incoming : String) : String :=
  "Project theme mismatch: existing theme is " ++ squote ++ stored ++ squote
    ++ " but run was executed with " ++ squote ++ incoming ++ squote

/-- `ProjectRepository.save_run`, with `_utc_now_iso()` supplied as `now`.
Returns the resulting directory state paired with either the run path or
the raised failure; a failure leaves the state unchanged (the check runs
before any file write). -/
def save_run (state : ProjectDirState) (project : String)
    (result : OpenAlexResearchResult) (now : String) :
    ProjectDirState × Except String String :=
  let slug := slugify project
  let checked : Except String Manifest :=
    match state.manifest with
    | none => .ok ⟨project, slug, result.theme, []⟩
    | some m =>
      if m.theme ≠ "" ∧ m.theme ≠ result.theme then
        .error (theme_mismatch_message m.theme result.theme)
      else .ok m
  match checked with
  | .error e => (state, .error e)
  | .ok manifest =>
    let file := run_filename result
    let payload : RunPayload := ⟨result, project, slug, now⟩
    let entry : RunEntry := ⟨result.seed.openalex_id, "runs/" ++ file, now⟩
    let manifest₂ :=
      { manifest with runs := manifest.runs.insert result.seed.openalex_id entry }
    (⟨some manifest₂, state.run_files.insert file payload⟩, .ok ("runs/" ++ file))

/-! ### Graph merging (`_merge_graphs`, `ProjectData.merged_graph`) -/

/-- The inner edge loop of `_merge_graphs`: skip already-seen ordered
pairs, otherwise remember and append. -/
def merge_edge_step (acc : List (String × String) × List (String × String))
    (e : String × String) : List (String × String) × List (String × String) :=
  if e ∈ acc.2 then acc else (acc.1 ++ [e], acc.2 ++ [e])

/-- One graph's contribution in `_merge_graphs`: `setdefault` every node
(first writer wins), then fold the edges through the seen-set. -/
def merge_graph_step
    (acc : PyDict String GraphNode × List (String × String) × List (String × String))
    (g : CitationGraph) :
    PyDict String GraphNode × List (String × String) × List (String × String) :=
  let nodes := g.nodes.foldl (fun nd p => nd.setdefault p.1 p.2) acc.1
  let edges_seen := g.edges.foldl merge_edge_step (acc.2.1, acc.2.2)
  (nodes, edges_seen.1, edges_seen.2)

/-- `_merge_graphs(graphs, seed_key=...)`. -/
def merge_graphs (graphs : List CitationGraph) (seed_key : String) :
    CitationGraph :=
  let r := graphs.foldl merge_graph_step ([], [], [])
  ⟨seed_key, r.1, r.2.1⟩

/-- The slice of `ProjectData` that `merged_graph` reads: the project slug
and the loaded per-run results. -/
structure ProjectData where
  name : String
  slug : String
  theme : String
  results : List OpenAlexResearchResult
deriving DecidableEq, Inhabited

/-- `ProjectData.merged_graph`: merge every loaded run's graph under the
project slug as seed key. -/
def ProjectData.merged_graph (pd : ProjectData) : CitationGraph :=
  merge_graphs (pd.results.map (fun r => r.graph)) pd.slug

/-! ### Additional `PyDict` facts used by the key-assignment proofs -/

theorem PyDict.getD_insert_self {κ α : Type} [DecidableEq κ]
    (d : PyDict κ α) (k : κ) (v fallback : α) :
    (d.insert k v).getD k fallback = v := by
  simp [PyDict.getD, PyDict.get?_insert_self]

theorem PyDict.getD_insert_ne {κ α : Type} [DecidableEq κ]
    (d : PyDict κ α) (k k' : κ) (v fallback : α) (h : k ≠ k') :
    (d.insert k v).getD k' fallback = d.getD k' fallback := by
  simp [PyDict.getD, PyDict.get?_insert_ne _ _ _ _ h]

/-! ### Sample data used by counterexamples and witnesses -/

/-- A single-author work. -/
def sample_smith : Work := ⟨"W1", "Paper A", some 2020, ["Jane Smith"], [], none, none⟩

/-- Same base key as `sample_smith`, different id. -/
def sample_smith2 : Work := ⟨"W2", "Paper B", some 2020, ["John Smith"], [], none, none⟩

/-- Same base key again. -/
def sample_smith3 : Work := ⟨"W3", "Paper C", some 2020, ["Jane Smith"], [], none, none⟩

/-- A work with two authors: first author surname Smith, last author
surname Jones. -/
def sample_two_authors : Work :=
  ⟨"W5", "Paper E", some 2020, ["Alice Smith", "Bob Jones"], [], none, none⟩

/-- A themed work matched by the heuristic agent. -/
def sample_themed : Work :=
  ⟨"WT", "Machine Learning Survey", some 2021, [], [], none, none⟩

/-! ### C4 -/

/-- The surname normalization the key generator applies to one author
display name: the final whitespace-separated segment of the stripped name,
kept to its alphabetic characters, first letter upper-cased (empty when
nothing usable remains). -/
def surname_key (name : String) : String :=
  let first_author := py_strip name
  if first_author = "" then ""
  else
    let last_segment := (py_split_ws first_author).getLastD ""
    let ascii_name := last_segment.data.filter Char.isAlpha
    if ascii_name = [] then ""
    else String.mk (capitalize_first ascii_name)

/-- The claim's reading of the base key: the LAST author's surname plus the
year, with the identifier fallback. -/
def claimed_last_author_base (w : Work) : String :=
  let nm := surname_key (w.authors.getLastD "")
  if nm ≠ "" then nm ++ year_string w.publication_year else id_fallback w

/-- Claim C4, corrected: the base key is built from the FIRST author's
display name (its final whitespace-separated segment), not the last
author's; year and identifier fallbacks are as claimed. -/
theorem c4_base_key (w : Work) :
    (w.authors = [] → base_key w = id_fallback w)
    ∧ ∀ a rest, w.authors = a :: rest →
        (surname_key a ≠ "" →
          base_key w = surname_key a ++ year_string w.publication_year)
        ∧ (surname_key a = "" → base_key w = id_fallback w) := by
  constructor
  · intro h
    simp [base_key, h, last_name_from_authors]
  · intro a rest h
    have hl : last_name_from_authors w.authors = surname_key a := by
      rw [h]; rfl
    constructor
    · intro hne
      simp [base_key, hl, hne]
    · intro heq
      simp [base_key, hl, heq]

/-- Counterexample to claim C4 as stated: for a work whose first author is
Alice Smith and last author Bob Jones (year 2020), the code produces
`Smith2020`, not the claimed last-author key `Jones2020`. -/
theorem c4_base_key_counterexample :
    base_key sample_two_authors = "Smith2020"
    ∧ claimed_last_author_base sample_two_authors = "Jones2020"
    ∧ base_key sample_two_authors ≠ claimed_last_author_base sample_two_authors := by
  decide

/-- Witness for `c4_base_key` at a concrete single-author work. -/
theorem c4_base_key_witness :
    base_key sample_smith = surname_key "Jane Smith" ++ year_string (some 2020) :=
  ((c4_base_key sample_smith).2 "Jane Smith" [] rfl).1 (by decide)

/-! ### C5 -/

/-- The key that the `k+1`-st holder of a base key receives (`count` prior
holders): the bare base for the first, base plus suffix thereafter. -/
def occurrence_key (base : String) (count : Nat) : String :=
  if count = 0 then base else base ++ key_suffix count

theorem assign_keys_foldl_not_mem (ws : List Work)
    (acc : PyDict String String × PyDict String Nat) (id : String)
    (h : ∀ w ∈ ws, w.openalex_id ≠ id) :
    ((ws.foldl assign_step acc).1).get? id = acc.1.get? id := by
  induction ws generalizing acc with
  | nil => rfl
  | cons w ws ih =>
    rw [List.foldl_cons, ih _ (fun w' hw' => h w' (List.mem_cons_of_mem _ hw'))]
    exact PyDict.get?_insert_ne _ _ _ _ (h w (List.mem_cons_self _ _))

theorem assign_keys_foldl_get :
    ∀ (ws : List Work) (acc : PyDict String String × PyDict String Nat)
      (i : Nat) (hi : i < ws.length),
    (ws.map Work.openalex_id).Nodup →
    ((ws.foldl assign_step acc).1).get? (ws[i].openalex_id)
      = some (occurrence_key (base_key ws[i])
          (acc.2.getD (base_key ws[i]) 0
            + ((ws.take i).filter (fun w => base_key w = base_key ws[i])).length))
  | [], _, i, hi, _ => absurd hi (by simp)
  | w :: ws, acc, 0, hi, hnd => by
    have hne : ∀ w' ∈ ws, w'.openalex_id ≠ w.openalex_id := by
      intro w' hw' hc
      rw [List.map_cons, List.nodup_cons] at hnd
      exact hnd.1 (hc ▸ List.mem_map_of_mem Work.openalex_id hw')
    simp only [List.getElem_cons_zero, List.take_zero, List.filter_nil,
      List.length_nil, Nat.add_zero]
    rw [List.foldl_cons, assign_keys_foldl_not_mem ws _ _ hne]
    simp [assign_step, occurrence_key, PyDict.get?_insert_self]
  | w :: ws, acc, i + 1, hi, hnd => by
    have hi' : i < ws.length := by simpa using hi
    have hnd' : (ws.map Work.openalex_id).Nodup := by
      rw [List.map_cons, List.nodup_cons] at hnd
      exact hnd.2
    rw [List.foldl_cons]
    rw [List.getElem_cons_succ]
    rw [assign_keys_foldl_get ws (assign_step acc w) i hi' hnd']
    congr 2
    rw [List.take_succ_cons, List.filter_cons]
    by_cases hb : base_key w = base_key ws[i]
    · have hstep : (assign_step acc w).2.getD (base_key ws[i]) 0
          = acc.2.getD (base_key ws[i]) 0 + 1 := by
        show (acc.2.insert (base_key w) _).getD (base_key ws[i]) 0 = _
        rw [hb, PyDict.getD_insert_self]
      rw [hstep, if_pos (by simp [hb]), List.length_cons]
      omega
    · have hstep : (assign_step acc w).2.getD (base_key ws[i]) 0
          = acc.2.getD (base_key ws[i]) 0 := by
        show (acc.2.insert (base_key w) _).getD (base_key ws[i]) 0 = _
        exact PyDict.getD_insert_ne _ _ _ _ _ hb
      rw [hstep, if_neg (by simp [hb])]

theorem string_mk_append (a b : List Char) :
    String.mk (a ++ b) = String.mk a ++ String.mk b := rfl

theorem suffix_aux_zero (fuel : Nat) (acc : List Char) :
    suffix_aux fuel 0 acc = acc := by
  cases fuel <;> rfl

theorem suffix_aux_spec :
    ∀ (n : Nat) (fuel : Nat) (acc : List Char), n ≤ fuel → 1 ≤ n →
    String.mk (suffix_aux fuel n acc) = spec_bijective_base26 n ++ String.mk acc
  | 0, _, _, _, h1 => absurd h1 (by omega)
  | m + 1, 0, _, hf, _ => absurd hf (by omega)
  | m + 1, fuel + 1, acc, hf, _ => by
    show String.mk (suffix_aux fuel (m / 26) (Char.ofNat (97 + m % 26) :: acc)) = _
    by_cases hm : m + 1 ≤ 26
    · have hdiv : m / 26 = 0 := by omega
      rw [hdiv, suffix_aux_zero]
      have hrhs : spec_bijective_base26 (m + 1)
          = String.mk [Char.ofNat (96 + (m + 1))] := by
        rw [spec_bijective_base26]
        rw [if_pos hm]
      rw [hrhs]
      have hc : 96 + (m + 1) = 97 + m % 26 := by omega
      rw [hc]
      rfl
    · have hdiv1 : 1 ≤ m / 26 := by omega
      have hdivf : m / 26 ≤ fuel := by
        have := Nat.div_le_self m 26
        omega
      have hrhs : spec_bijective_base26 (m + 1)
          = spec_bijective_base26 (m / 26) ++ String.mk [Char.ofNat (97 + m % 26)] := by
        rw [spec_bijective_base26]
        rw [if_neg hm]
        have h1 : m + 1 - 1 = m := by omega
        rw [h1]
      rw [suffix_aux_spec (m / 26) fuel (Char.ofNat (97 + m % 26) :: acc) hdivf hdiv1]
      rw [hrhs, String.append_assoc]
      rfl
termination_by n => n
decreasing_by
  have := Nat.div_le_self m 26
  omega

theorem key_suffix_eq_spec (n : Nat) (h : 1 ≤ n) :
    key_suffix n = spec_bijective_base26 n := by
  rw [key_suffix, suffix_aux_spec n n [] (Nat.le_refl n) h]
  show spec_bijective_base26 n ++ "" = _
  exact String.append_empty _

/-- Claim C5, confirmed: `assign_keys` gives the first holder of a base key
the bare base and the `count+1`-st holder the base plus `_suffix(count)`
(for works with pairwise distinct identifiers), and `_suffix` is exactly
the bijective base-26 scheme `a`, `b`, ..., `z`, `aa`, `ab`, ... -/
theorem c5_assign_keys :
    (∀ (ws : List Work) (i : Nat) (hi : i < ws.length),
      (ws.map Work.openalex_id).Nodup →
      (assign_keys ws).get? (ws[i].openalex_id)
        = some (occurrence_key (base_key ws[i])
            ((ws.take i).filter (fun w => base_key w = base_key ws[i])).length))
    ∧ ∀ n, 1 ≤ n → key_suffix n = spec_bijective_base26 n := by
  constructor
  · intro ws i hi hnd
    have h := assign_keys_foldl_get ws ([], []) i hi hnd
    simpa [assign_keys, PyDict.getD, PyDict.get?] using h
  · exact key_suffix_eq_spec

/-- Witness for `c5_assign_keys`: three works sharing base key `Smith2020`
receive `Smith2020`, `Smith2020a`, `Smith2020b`, and the 27th suffix is the
spec's `aa`. -/
theorem c5_assign_keys_witness :
    (assign_keys [sample_smith, sample_smith2, sample_smith3]).get? "W1"
        = some "Smith2020"
    ∧ (assign_keys [sample_smith, sample_smith2, sample_smith3]).get? "W2"
        = some "Smith2020a"
    ∧ (assign_keys [sample_smith, sample_smith2, sample_smith3]).get? "W3"
        = some "Smith2020b"
    ∧ key_suffix 27 = spec_bijective_base26 27 := by
  refine ⟨?_, ?_, ?_, c5_assign_keys.2 27 (by omega)⟩
  · exact (c5_assign_keys.1 [sample_smith, sample_smith2, sample_smith3] 0
      (by decide) (by decide)).trans (by decide)
  · exact (c5_assign_keys.1 [sample_smith, sample_smith2, sample_smith3] 1
      (by decide) (by decide)).trans (by decide)
  · exact (c5_assign_keys.1 [sample_smith, sample_smith2, sample_smith3] 2
      (by decide) (by decide)).trans (by decide)

/-! ### C6 -/

theorem consume_page_none {α : Type} :
    ∀ xs : List α, consume_page none xs = PageResult.next xs none := by
  intro xs
  induction xs with
  | nil => rfl
  | cons x xs ih => simp [consume_page, ih]

theorem consume_page_some {α : Type} :
    ∀ (xs : List α) (m : Int), 1 ≤ m →
    consume_page (some m) xs
      = if (xs.length : Int) < m then PageResult.next xs (some (m - xs.length))
        else PageResult.stop (xs.take m.toNat) := by
  intro xs
  induction xs with
  | nil =>
    intro m hm
    rw [if_pos (by simpa using hm)]
    simp [consume_page]
  | cons x xs ih =>
    intro m hm
    show (if m - 1 ≤ 0 then PageResult.stop [x]
        else match consume_page (some (m - 1)) xs with
          | .next out r₂ => .next (x :: out) r₂
          | .stop out => .stop (x :: out)) = _
    by_cases h1 : m - 1 ≤ 0
    · have hm1 : m = 1 := by omega
      rw [if_pos h1, if_neg (by simp; omega)]
      subst hm1
      rfl
    · rw [if_neg h1, ih (m - 1) (by omega)]
      by_cases h2 : (xs.length : Int) < m - 1
      · rw [if_pos h2, if_pos (by simp; omega)]
        have : m - 1 - xs.length = m - (x :: xs).length := by simp; omega
        rw [this]
      · rw [if_neg h2, if_neg (by simp; omega)]
        have ht : m.toNat = (m - 1).toNat + 1 := by omega
        rw [ht]
        rfl

theorem iterate_paginated_none {α : Type} :
    ∀ pages : List (List α),
    iterate_paginated none pages = (pages.takeWhile (fun p => !p.isEmpty)).flatten := by
  intro pages
  induction pages with
  | nil => rfl
  | cons page rest ih =>
    by_cases hp : page.isEmpty
    · simp [iterate_paginated, List.takeWhile_cons, hp]
    · rw [show iterate_paginated none (page :: rest)
          = page ++ iterate_paginated none rest from by
        simp [iterate_paginated, hp, consume_page_none]]
      rw [ih, List.takeWhile_cons]
      simp [hp]

theorem iterate_paginated_some {α : Type} :
    ∀ (pages : List (List α)) (m : Int), 1 ≤ m →
    iterate_paginated (some m) pages
      = ((pages.takeWhile (fun p => !p.isEmpty)).flatten).take m.toNat := by
  intro pages
  induction pages with
  | nil => intro m _; simp [iterate_paginated]
  | cons page rest ih =>
    intro m hm
    by_cases hp : page.isEmpty
    · simp [iterate_paginated, List.takeWhile_cons, hp]
    · rw [List.takeWhile_cons, if_pos (by simp [hp])]
      rw [show iterate_paginated (some m) (page :: rest)
          = (match consume_page (some m) page with
             | .stop out => out
             | .next out r => out ++ iterate_paginated r rest) from by
        simp [iterate_paginated, hp]]
      rw [consume_page_some page m hm]
      by_cases hlt : (page.length : Int) < m
      · rw [if_pos hlt]
        show page ++ iterate_paginated (some (m - page.length)) rest = _
        rw [ih (m - page.length) (by omega)]
        rw [List.flatten_cons, List.take_append_eq_append_take]
        have h1 : page.take m.toNat = page := by
          apply List.take_of_length_le
          omega
        have h2 : (m - page.length).toNat = m.toNat - page.length := by omega
        rw [h1, h2]
      · rw [if_neg hlt]
        show page.take m.toNat = _
        rw [List.flatten_cons, List.take_append_eq_append_take]
        have h2 : m.toNat - page.length = 0 := by omega
        rw [h2, List.take_zero, List.append_nil]

/-- Claim C6, corrected: with a cap `m >= 1`, `fetch_citations` returns
exactly the first `m` available items (stopping mid-page once the `m`-th is
yielded), hence at most `m`; with no cap it pages until the server returns
no results (an empty page) or no next cursor (the page sequence ends).  A
cap `m <= 0` is NOT honoured as zero — the check runs after a yield, so
one item is still retrieved (see the counterexample). -/
theorem c6_fetch_citations (pages : List (List Work)) (m : Int) :
    (1 ≤ m →
      fetch_citations (some m) pages
          = ((pages.takeWhile (fun p => !p.isEmpty)).flatten).take m.toNat
      ∧ (fetch_citations (some m) pages).length ≤ m.toNat)
    ∧ fetch_citations none pages = (pages.takeWhile (fun p => !p.isEmpty)).flatten := by
  refine ⟨fun hm => ?_, iterate_paginated_none pages⟩
  have h := iterate_paginated_some pages m hm
  exact ⟨h, by rw [fetch_citations, h]; exact List.length_take_le _ _⟩

/-- Counterexample to claim C6 as stated: with configured cap `m = 0` and a
single one-item page, `fetch_citations` still retrieves that item, so the
returned list does not contain at most `m = 0` works. -/
theorem c6_fetch_citations_counterexample :
    fetch_citations (some 0) [[sample_smith]] = [sample_smith]
    ∧ ¬ ((fetch_citations (some 0) [[sample_smith]]).length ≤ 0) := by
  decide

/-- Witness for `c6_fetch_citations`: cap 2 over pages `[[s1, s2], [s3]]`
yields exactly the first two items. -/
theorem c6_fetch_citations_witness :
    fetch_citations (some 2) [[sample_smith, sample_smith2], [sample_smith3]]
      = [sample_smith, sample_smith2]
    ∧ fetch_citations none [[sample_smith, sample_smith2], [sample_smith3]]
      = [sample_smith, sample_smith2, sample_smith3] := by
  refine ⟨?_, ?_⟩
  · exact ((c6_fetch_citations [[sample_smith, sample_smith2], [sample_smith3]] 2).1
      (by omega)).1.trans (by decide)
  · exact (c6_fetch_citations [[sample_smith, sample_smith2], [sample_smith3]] 2).2.trans
      (by decide)

/-! ### C8 -/

theorem build_foldl_edges (seed_key : String) :
    ∀ (decisions : List WorkDecision)
      (acc : PyDict String GraphNode × List (String × String)),
    (decisions.foldl (build_step seed_key) acc).2
      = acc.2 ++ raw_edges seed_key decisions := by
  intro decisions
  induction decisions with
  | nil => intro acc; simp [raw_edges]
  | cons d ds ih =>
    intro acc
    rw [List.foldl_cons, ih]
    show (acc.2 ++ [decision_edge seed_key d]) ++ raw_edges seed_key ds = _
    rw [List.append_assoc]
    rfl

theorem build_eq_some (seed : Work) (decisions : List WorkDecision)
    (keys : PyDict String String) (g : CitationGraph)
    (h : build seed decisions keys = some g) :
    ∃ seed_key, keys.get? seed.openalex_id = some seed_key
      ∧ g.seed_key = seed_key
      ∧ g.nodes = (decisions.foldl (build_step seed_key)
          (PyDict.insert [] seed_key ⟨seed.openalex_id, seed.title, .seed, .seed⟩, [])).1
      ∧ g.edges = dedup_keep_first (raw_edges seed_key decisions) := by
  rw [build] at h
  cases hk : keys.get? seed.openalex_id with
  | none => rw [hk] at h; exact absurd h (by simp)
  | some seed_key =>
    rw [hk] at h
    refine ⟨seed_key, rfl, ?_, ?_, ?_⟩
    · exact (congrArg CitationGraph.seed_key (Option.some.inj h)).symm
    · exact (congrArg CitationGraph.nodes (Option.some.inj h)).symm
    · have := (congrArg CitationGraph.edges (Option.some.inj h)).symm
      rw [this]
      rw [build_foldl_edges seed_key decisions _]
      rfl

/-- Claim C8, confirmed: each reference decision contributes the edge
`(seed_key, decision_key)` and each citation decision the edge
`(decision_key, seed_key)`; the edge list is the raw decision-order edge
list deduplicated keeping first occurrences in place (`spec_dedup`), hence
contains no duplicate ordered pair. -/
theorem c8_build_edges (seed : Work) (decisions : List WorkDecision)
    (keys : PyDict String String) (g : CitationGraph)
    (h : build seed decisions keys = some g) :
    g.edges = spec_dedup (raw_edges g.seed_key decisions)
    ∧ (∀ d ∈ decisions,
        (d.relation = Relation.reference → (g.seed_key, d.graph_key) ∈ g.edges)
        ∧ (d.relation = Relation.citation → (d.graph_key, g.seed_key) ∈ g.edges))
    ∧ g.edges.Nodup := by
  obtain ⟨seed_key, _, hsk, _, hedges⟩ := build_eq_some seed decisions keys g h
  subst hsk
  rw [hedges, dedup_keep_first_eq_spec]
  refine ⟨rfl, ?_, nodup_spec_dedup _⟩
  intro d hd
  constructor
  · intro hrel
    rw [mem_spec_dedup]
    have heq : decision_edge g.seed_key d = (g.seed_key, d.graph_key) := by
      rw [decision_edge, hrel]
    exact heq ▸ List.mem_map_of_mem (decision_edge g.seed_key) hd
  · intro hrel
    rw [mem_spec_dedup]
    have heq : decision_edge g.seed_key d = (d.graph_key, g.seed_key) := by
      rw [decision_edge, hrel]
    exact heq ▸ List.mem_map_of_mem (decision_edge g.seed_key) hd

/-- A sample reference decision for the build witnesses. -/
def sample_ref_decision : WorkDecision :=
  ⟨sample_smith2, .accepted, "ok", .reference, "K2"⟩

/-- A duplicate of `sample_ref_decision`'s edge under another verdict. -/
def sample_ref_decision2 : WorkDecision :=
  ⟨sample_smith3, .rejected, "no", .reference, "K2"⟩

/-- A citation decision for the build witnesses. -/
def sample_cit_decision : WorkDecision :=
  ⟨sample_two_authors, .accepted, "ok", .citation, "K3"⟩

/-- The keys dict assigning the seed its key in the build witnesses. -/
def sample_keys : PyDict String String := [("W1", "Smith2020")]

/-- The graph produced by `build` on the sample seed and decisions. -/
def sample_graph : CitationGraph :=
  ⟨"Smith2020",
    [("Smith2020", ⟨"W1", "Paper A", .seed, .seed⟩),
     ("K2", ⟨"W3", "Paper C", .reference, .rejected⟩),
     ("K3", ⟨"W5", "Paper E", .citation, .accepted⟩)],
    [("Smith2020", "K2"), ("K3", "Smith2020")]⟩

/-- Witness for `c8_build_edges`: a build with a duplicated reference edge
keeps one copy of each edge, in first-occurrence order, and both edge
directions appear. -/
theorem c8_build_edges_witness :
    (sample_graph.edges).Nodup
    ∧ ("Smith2020", "K2") ∈ sample_graph.edges
    ∧ ("K3", "Smith2020") ∈ sample_graph.edges := by
  have h := c8_build_edges sample_smith
    [sample_ref_decision, sample_ref_decision2, sample_cit_decision]
    sample_keys sample_graph (by decide)
  refine ⟨h.2.2, ?_, ?_⟩
  · exact (h.2.1 sample_ref_decision (by decide)).1 rfl
  · exact (h.2.1 sample_cit_decision (by decide)).2 rfl

/-! ### C9 -/

theorem setdefault_foldl_get? (l : List (String × GraphNode)) :
    ∀ (acc : PyDict String GraphNode) (k : String),
    ((l.foldl (fun nd p => nd.setdefault p.1 p.2) acc).get? k)
      = match acc.get? k with
        | some v => some v
        | none => PyDict.get? l k := by
  induction l with
  | nil =>
    intro acc k
    cases hk : acc.get? k <;> simp [hk, PyDict.get?]
  | cons p l ih =>
    intro acc k
    obtain ⟨k₀, v₀⟩ := p
    rw [List.foldl_cons, ih]
    by_cases h₀ : k₀ = k
    · subst h₀
      rw [PyDict.get?_setdefault_self]
      cases hk : acc.get? k₀ <;> simp [PyDict.get?]
    · rw [PyDict.get?_setdefault_ne _ _ _ _ h₀]
      cases hk : acc.get? k <;> simp [PyDict.get?, h₀]

theorem merge_foldl_nodes_get? (graphs : List CitationGraph) :
    ∀ (acc : PyDict String GraphNode × List (String × String) × List (String × String))
      (k : String),
    ((graphs.foldl merge_graph_step acc).1).get? k
      = match acc.1.get? k with
        | some v => some v
        | none => graphs.findSome? (fun g => g.nodes.get? k) := by
  induction graphs with
  | nil =>
    intro acc k
    cases hk : acc.1.get? k <;> simp [hk]
  | cons g graphs ih =>
    intro acc k
    rw [List.foldl_cons, ih, List.findSome?_cons]
    show (match ((g.nodes.foldl (fun nd p => nd.setdefault p.1 p.2) acc.1).get? k) with
        | some v => some v
        | none => _) = _
    rw [setdefault_foldl_get? g.nodes acc.1 k]
    cases hk : acc.1.get? k <;> cases hg : PyDict.get? g.nodes k <;> simp

theorem merge_edge_foldl (l : List (String × String)) :
    ∀ (es seen : List (String × String)),
    (l.foldl merge_edge_step (es, seen)).1 = es ++ dedup_first_aux seen l
    ∧ (l.foldl merge_edge_step (es, seen)).2 = seen ++ dedup_first_aux seen l := by
  induction l with
  | nil => intro es seen; simp [dedup_first_aux]
  | cons e l ih =>
    intro es seen
    by_cases he : e ∈ seen
    · rw [List.foldl_cons]
      rw [show merge_edge_step (es, seen) e = (es, seen) from by
        simp [merge_edge_step, he]]
      rw [show dedup_first_aux seen (e :: l) = dedup_first_aux seen l from by
        simp [dedup_first_aux, he]]
      exact ih es seen
    · rw [List.foldl_cons]
      rw [show merge_edge_step (es, seen) e = (es ++ [e], seen ++ [e]) from by
        simp [merge_edge_step, he]]
      rw [show dedup_first_aux seen (e :: l)
          = e :: dedup_first_aux (e :: seen) l from by
        simp [dedup_first_aux, he]]
      have hcongr : dedup_first_aux (seen ++ [e]) l = dedup_first_aux (e :: seen) l := by
        refine dedup_first_aux_congr l _ _ ?_
        intro x
        simp [or_comm]
      obtain ⟨h1, h2⟩ := ih (es ++ [e]) (seen ++ [e])
      constructor
      · rw [h1, hcongr, List.append_assoc]
        rfl
      · rw [h2, hcongr, List.append_assoc]
        rfl

theorem merge_foldl_edges (graphs : List CitationGraph) :
    ∀ acc : PyDict String GraphNode × List (String × String) × List (String × String),
    (graphs.foldl merge_graph_step acc).2
      = ((graphs.map CitationGraph.edges).flatten).foldl merge_edge_step acc.2 := by
  induction graphs with
  | nil => intro acc; rfl
  | cons g graphs ih =>
    intro acc
    rw [List.foldl_cons, ih, List.map_cons, List.flatten_cons, List.foldl_append]
    rfl

theorem merge_graphs_edges (graphs : List CitationGraph) (seed_key : String) :
    (merge_graphs graphs seed_key).edges
      = spec_dedup ((graphs.map CitationGraph.edges).flatten) := by
  show (graphs.foldl merge_graph_step ([], [], [])).2.1 = _
  have h := merge_foldl_edges graphs ([], [], [])
  have h1 := (merge_edge_foldl ((graphs.map CitationGraph.edges).flatten) [] []).1
  calc (graphs.foldl merge_graph_step ([], [], [])).2.1
      = (((graphs.map CitationGraph.edges).flatten).foldl merge_edge_step ([], [])).1 := by
        rw [congrArg Prod.fst h]
    _ = dedup_first_aux [] ((graphs.map CitationGraph.edges).flatten) := by
        rw [h1]; rfl
    _ = spec_dedup ((graphs.map CitationGraph.edges).flatten) :=
        dedup_keep_first_eq_spec _

theorem merge_graphs_nodes (graphs : List CitationGraph) (seed_key : String)
    (k : String) :
    (merge_graphs graphs seed_key).nodes.get? k
      = graphs.findSome? (fun g => g.nodes.get? k) := by
  show ((graphs.foldl merge_graph_step ([], [], [])).1).get? k = _
  rw [merge_foldl_nodes_get? graphs ([], [], []) k]
  simp [PyDict.get?]

/-- Claim C9, confirmed: the merged project graph keeps, for every node
key, the earliest loaded run's node; its edges are the concatenation of the
runs' edge lists deduplicated by ordered pair in first-occurrence order;
and its seed key is the project slug. -/
theorem c9_merged_graph (pd : ProjectData) :
    pd.merged_graph.seed_key = pd.slug
    ∧ (∀ k, pd.merged_graph.nodes.get? k
        = (pd.results.map (fun r => r.graph)).findSome? (fun g => g.nodes.get? k))
    ∧ pd.merged_graph.edges
      = spec_dedup (((pd.results.map (fun r => r.graph)).map CitationGraph.edges).flatten) := by
  refine ⟨rfl, ?_, ?_⟩
  · intro k
    exact merge_graphs_nodes (pd.results.map (fun r => r.graph)) pd.slug k
  · exact merge_graphs_edges (pd.results.map (fun r => r.graph)) pd.slug

/-! ### C10 -/

/-- Edge-endpoint closure: both endpoints of every edge are node keys. -/
abbrev graph_closed (g : CitationGraph) : Prop :=
  ∀ e ∈ g.edges, (g.nodes.get? e.1).isSome ∧ (g.nodes.get? e.2).isSome

theorem build_foldl_nodes_isSome (seed_key : String) :
    ∀ (decisions : List WorkDecision)
      (acc : PyDict String GraphNode × List (String × String)) (k : String),
    ((acc.1).get? k).isSome →
    (((decisions.foldl (build_step seed_key) acc).1).get? k).isSome := by
  intro decisions
  induction decisions with
  | nil => intro acc k h; exact h
  | cons d ds ih =>
    intro acc k h
    rw [List.foldl_cons]
    exact ih _ k (PyDict.get?_isSome_of_isSome _ _ _ _ h)

theorem build_foldl_nodes_decision (seed_key : String) :
    ∀ (decisions : List WorkDecision)
      (acc : PyDict String GraphNode × List (String × String))
      (d : WorkDecision), d ∈ decisions →
    (((decisions.foldl (build_step seed_key) acc).1).get? d.graph_key).isSome := by
  intro decisions
  induction decisions with
  | nil => intro _ _ h; exact absurd h (List.not_mem_nil _)
  | cons d₀ ds ih =>
    intro acc d hd
    rw [List.foldl_cons]
    rcases List.mem_cons.mp hd with h | h
    · subst h
      exact build_foldl_nodes_isSome seed_key ds _ _
        (PyDict.get?_insert_self_isSome _ _ _)
    · exact ih _ d h

/-- Claim C10, confirmed: every graph `build` produces has its seed key
among its node keys and both endpoints of every edge among its node keys,
and `_merge_graphs` preserves the edge-endpoint closure. -/
theorem c10_graph_wellformed :
    (∀ (seed : Work) (decisions : List WorkDecision) (keys : PyDict String String)
        (g : CitationGraph), build seed decisions keys = some g →
      (g.nodes.get? g.seed_key).isSome ∧ graph_closed g)
    ∧ ∀ (graphs : List CitationGraph) (sk : String),
        (∀ g ∈ graphs, graph_closed g) → graph_closed (merge_graphs graphs sk) := by
  constructor
  · intro seed decisions keys g h
    obtain ⟨seed_key, _, hsk, hnodes, hedges⟩ := build_eq_some seed decisions keys g h
    subst hsk
    have hseed : (g.nodes.get? g.seed_key).isSome := by
      rw [hnodes]
      exact build_foldl_nodes_isSome g.seed_key decisions _ _
        (PyDict.get?_insert_self_isSome _ _ _)
    refine ⟨hseed, ?_⟩
    intro e he
    rw [hedges, dedup_keep_first_eq_spec, mem_spec_dedup] at he
    obtain ⟨d, hd, hde⟩ := List.mem_map.mp he
    have hkey : (g.nodes.get? d.graph_key).isSome := by
      rw [hnodes]
      exact build_foldl_nodes_decision g.seed_key decisions _ d hd
    rw [decision_edge] at hde
    cases hrel : d.relation <;> rw [hrel] at hde <;> rw [← hde]
    · exact ⟨hseed, hkey⟩
    · exact ⟨hkey, hseed⟩
  · intro graphs sk hclosed e he
    rw [merge_graphs_edges, mem_spec_dedup, List.mem_flatten] at he
    obtain ⟨es, hes, hees⟩ := he
    obtain ⟨g, hg, hge⟩ := List.mem_map.mp hes
    have hgc := hclosed g hg (e := e) (by rw [hge]; exact hees)
    constructor
    · rw [merge_graphs_nodes]
      rw [List.findSome?_isSome_iff]
      exact ⟨g, hg, hgc.1⟩
    · rw [merge_graphs_nodes]
      rw [List.findSome?_isSome_iff]
      exact ⟨g, hg, hgc.2⟩

/-- Witness for `c10_graph_wellformed` at the sample build and a two-copy
merge of its graph. -/
theorem c10_graph_wellformed_witness :
    (sample_graph.nodes.get? sample_graph.seed_key).isSome
    ∧ graph_closed (merge_graphs [sample_graph, sample_graph] "proj") := by
  refine ⟨(c10_graph_wellformed.1 sample_smith
      [sample_ref_decision, sample_ref_decision2, sample_cit_decision]
      sample_keys sample_graph (by decide)).1,
    c10_graph_wellformed.2 [sample_graph, sample_graph] "proj" (by decide)⟩

/-! ### C3 -/

theorem store_foldl_not_mem (ws : List Work) :
    ∀ (c : CacheData) (id : String), (∀ w ∈ ws, w.openalex_id ≠ id) →
    ((ws.foldl store_work c).works).get? id = c.works.get? id := by
  induction ws with
  | nil => intro c id _; rfl
  | cons w ws ih =>
    intro c id h
    rw [List.foldl_cons, ih _ id (fun w' hw' => h w' (List.mem_cons_of_mem _ hw'))]
    exact PyDict.get?_insert_ne _ _ _ _ (h w (List.mem_cons_self _ _))

theorem store_foldl_mem (ws : List Work) :
    ∀ (c : CacheData), (ws.map Work.openalex_id).Nodup →
    ∀ w ∈ ws, ((ws.foldl store_work c).works).get? w.openalex_id = some w := by
  induction ws with
  | nil => intro c _ w h; exact absurd h (List.not_mem_nil _)
  | cons w₀ ws ih =>
    intro c hnd w hw
    rw [List.map_cons, List.nodup_cons] at hnd
    rw [List.foldl_cons]
    rcases List.mem_cons.mp hw with h | h
    · subst h
      have hne : ∀ w' ∈ ws, w'.openalex_id ≠ w.openalex_id := by
        intro w' hw' hc
        exact hnd.1 (hc ▸ List.mem_map_of_mem Work.openalex_id hw')
      rw [store_foldl_not_mem ws _ _ hne]
      exact PyDict.get?_insert_self _ _ _
    · exact ih _ hnd.2 w h

theorem get_reference_ids_persist (c : CacheData) (id : String) (ws : List Work) :
    get_reference_ids (persist_references c id ws) id = ws.map Work.openalex_id := by
  simp [get_reference_ids, persist_references, set_reference_ids,
    PyDict.get?_insert_self]

theorem get_citation_ids_persist (c : CacheData) (id : String) (ws : List Work) :
    get_citation_ids (persist_citations c id ws) id = ws.map Work.openalex_id := by
  simp [get_citation_ids, persist_citations, set_citation_ids,
    PyDict.get?_insert_self]

theorem get_work_persist_references (c : CacheData) (id : String) (ws : List Work)
    (hnd : (ws.map Work.openalex_id).Nodup) (w : Work) (hw : w ∈ ws) :
    get_work (persist_references c id ws) w.openalex_id = some w :=
  store_foldl_mem ws c hnd w hw

theorem get_work_persist_citations (c : CacheData) (id : String) (ws : List Work)
    (hnd : (ws.map Work.openalex_id).Nodup) (w : Work) (hw : w ∈ ws) :
    get_work (persist_citations c id ws) w.openalex_id = some w :=
  store_foldl_mem ws c hnd w hw

/-- Claim C3, corrected: a cached id-list is reused (no client call, cache
untouched) only when it is NON-EMPTY and fully resolvable; a cached EMPTY
id-list is indistinguishable from an absent entry (`dict.get(seed, [])`)
and takes the refetch path, as does any list with an unresolved id, in
which case the client's works and id-list overwrite the cache. -/
theorem c3_cache_reuse (client : String → List Work) (c : CacheData)
    (work_id : String) :
    (get_reference_ids c work_id ≠ [] →
      (collect_from_cache c (get_reference_ids c work_id)).length
          = (get_reference_ids c work_id).length →
      get_references client c work_id
        = (collect_from_cache c (get_reference_ids c work_id), c, false))
    ∧ (get_reference_ids c work_id = []
        ∨ (collect_from_cache c (get_reference_ids c work_id)).length
            ≠ (get_reference_ids c work_id).length →
      get_references client c work_id
        = (client work_id, persist_references c work_id (client work_id), true)
      ∧ get_reference_ids (persist_references c work_id (client work_id)) work_id
          = (client work_id).map Work.openalex_id
      ∧ (((client work_id).map Work.openalex_id).Nodup →
          ∀ w ∈ client work_id,
            get_work (persist_references c work_id (client work_id)) w.openalex_id
              = some w))
    ∧ (get_citation_ids c work_id ≠ [] →
      (collect_from_cache c (get_citation_ids c work_id)).length
          = (get_citation_ids c work_id).length →
      get_citations client c work_id
        = (collect_from_cache c (get_citation_ids c work_id), c, false))
    ∧ (get_citation_ids c work_id = []
        ∨ (collect_from_cache c (get_citation_ids c work_id)).length
            ≠ (get_citation_ids c work_id).length →
      get_citations client c work_id
        = (client work_id, persist_citations c work_id (client work_id), true)
      ∧ get_citation_ids (persist_citations c work_id (client work_id)) work_id
          = (client work_id).map Work.openalex_id
      ∧ (((client work_id).map Work.openalex_id).Nodup →
          ∀ w ∈ client work_id,
            get_work (persist_citations c work_id (client work_id)) w.openalex_id
              = some w)) := by
  refine ⟨?_, ?_, ?_, ?_⟩
  · intro hne hlen
    simp only [get_references]
    rw [if_pos hne, if_pos hlen]
  · intro hmiss
    refine ⟨?_, get_reference_ids_persist c work_id (client work_id),
      fun hnd w hw => get_work_persist_references c work_id (client work_id) hnd w hw⟩
    simp only [get_references]
    by_cases hne : get_reference_ids c work_id ≠ []
    · rcases hmiss with h | h
      · exact absurd h hne
      · rw [if_pos hne, if_neg h]
    · rw [if_neg hne]
  · intro hne hlen
    simp only [get_citations]
    rw [if_pos hne, if_pos hlen]
  · intro hmiss
    refine ⟨?_, get_citation_ids_persist c work_id (client work_id),
      fun hnd w hw => get_work_persist_citations c work_id (client work_id) hnd w hw⟩
    simp only [get_citations]
    by_cases hne : get_citation_ids c work_id ≠ []
    · rcases hmiss with h | h
      · exact absurd h hne
      · rw [if_pos hne, if_neg h]
    · rw [if_neg hne]

/-- A cache holding an EMPTY reference id-list for seed `W1`. -/
def cache_with_empty_list : CacheData := ⟨[], [("W1", [])], []⟩

/-- A cache whose reference id-list for `W1` fully resolves. -/
def cache_resolved : CacheData := ⟨[("W2", sample_smith2)], [("W1", ["W2"])], []⟩

/-- Counterexample to claim C3 as stated: the cache holds the id-list `[]`
for seed `W1` (so every listed id trivially resolves and the cache hit
count equals the id-list length), yet `get_references` calls the client. -/
theorem c3_cache_reuse_counterexample :
    cache_with_empty_list.references.get? "W1" = some []
    ∧ (collect_from_cache cache_with_empty_list
        (get_reference_ids cache_with_empty_list "W1")).length
        = (get_reference_ids cache_with_empty_list "W1").length
    ∧ (get_references (fun _ => [sample_smith]) cache_with_empty_list "W1").2.2
        = true := by
  decide

/-- Witness for `c3_cache_reuse`: a fully-resolvable non-empty id-list is
served from cache with no client call; the empty-list cache refetches,
overwriting the id-list and the fetched work. -/
theorem c3_cache_reuse_witness :
    get_references (fun _ => []) cache_resolved "W1"
      = ([sample_smith2], cache_resolved, false)
    ∧ (get_references (fun _ => [sample_smith3]) cache_with_empty_list "W1").2.2
        = true
    ∧ get_reference_ids
        (persist_references cache_with_empty_list "W1" [sample_smith3]) "W1"
        = ["W3"]
    ∧ get_work (persist_references cache_with_empty_list "W1" [sample_smith3]) "W3"
        = some sample_smith3 := by
  have h1 := (c3_cache_reuse (fun _ => []) cache_resolved "W1").1
    (by decide) (by decide)
  have h2 := (c3_cache_reuse (fun _ => [sample_smith3]) cache_with_empty_list "W1").2.1
    (Or.inl (by decide))
  refine ⟨h1.trans (by decide), ?_, h2.2.1.trans (by decide), ?_⟩
  · rw [h2.1]
  · exact h2.2.2 (by decide) sample_smith3 (by decide)

/-! ### C7 -/

theorem decision_map_foldl_not_mem (ds : List WorkDecision) :
    ∀ (acc : PyDict String WorkDecision) (id : String),
    (∀ d ∈ ds, d.work.openalex_id ≠ id) →
    ((ds.foldl (fun m d => m.insert d.work.openalex_id d) acc).get? id)
      = acc.get? id := by
  induction ds with
  | nil => intro acc id _; rfl
  | cons d ds ih =>
    intro acc id h
    rw [List.foldl_cons, ih _ id (fun d' hd' => h d' (List.mem_cons_of_mem _ hd'))]
    exact PyDict.get?_insert_ne _ _ _ _ (h d (List.mem_cons_self _ _))

theorem decision_map_foldl_get :
    ∀ (ds : List WorkDecision) (acc : PyDict String WorkDecision)
      (i : Nat) (hi : i < ds.length),
    (ds.map (fun d => d.work.openalex_id)).Nodup →
    ((ds.foldl (fun m d => m.insert d.work.openalex_id d) acc).get?
        (ds[i].work.openalex_id))
      = some ds[i]
  | [], _, i, hi, _ => absurd hi (by simp)
  | d :: ds, acc, 0, hi, hnd => by
    have hne : ∀ d' ∈ ds, d'.work.openalex_id ≠ d.work.openalex_id := by
      intro d' hd' hc
      rw [List.map_cons, List.nodup_cons] at hnd
      exact hnd.1 (hc ▸ List.mem_map_of_mem (fun d => d.work.openalex_id) hd')
    simp only [List.getElem_cons_zero]
    rw [List.foldl_cons, decision_map_foldl_not_mem ds _ _ hne]
    exact PyDict.get?_insert_self _ _ _
  | d :: ds, acc, i + 1, hi, hnd => by
    have hi' : i < ds.length := by simpa using hi
    have hnd' : (ds.map (fun d => d.work.openalex_id)).Nodup := by
      rw [List.map_cons, List.nodup_cons] at hnd
      exact hnd.2
    simp only [List.getElem_cons_succ]
    rw [List.foldl_cons]
    exact decision_map_foldl_get ds _ i hi' hnd'

/-- Claim C7, confirmed: when `_classify_with_llm` fails for a work (all
retries exhausted or the response invalid), `evaluate` does not propagate
the failure — the decision at that position carries the heuristic agent's
verdict for the same work, with a justification recording the fallback and
the error; works are assumed pairwise distinct by identifier (as fetched
lists are). -/
theorem c7_llm_fallback (classify : Work → Except String (Verdict × String))
    (works : List Work) (theme : String) (relation : Relation)
    (i : Nat) (e : String) (w : Work) (fd : WorkDecision)
    (hnd : (works.map Work.openalex_id).Nodup)
    (hw : works[i]? = some w)
    (hfd : (simple_evaluate works theme relation)[i]? = some fd)
    (herr : classify w = .error e) :
    (llm_evaluate classify works theme relation)[i]?
      = some ⟨w, fd.verdict,
          "Fallback to heuristic: " ++ fd.justification
            ++ " (LLM error: " ++ e ++ ")",
          relation, ""⟩ := by
  have hds : simple_evaluate works theme relation
      = works.map (fun w =>
          ⟨w, (score_work w (prepare_theme theme)).1,
            (score_work w (prepare_theme theme)).2, relation, ""⟩) := rfl
  have hfd' : fd = ⟨w, (score_work w (prepare_theme theme)).1,
      (score_work w (prepare_theme theme)).2, relation, ""⟩ := by
    rw [hds] at hfd
    rw [List.getElem?_map, hw] at hfd
    exact (Option.some.inj hfd).symm
  have hlen : i < (simple_evaluate works theme relation).length := by
    rcases List.getElem?_eq_some_iff.mp hfd with ⟨hlt, _⟩
    exact hlt
  have hgi : (simple_evaluate works theme relation)[i] = fd := by
    rcases List.getElem?_eq_some_iff.mp hfd with ⟨_, hval⟩
    exact hval
  have hmapid : ((simple_evaluate works theme relation).map
      (fun d => d.work.openalex_id)).Nodup := by
    rw [hds, List.map_map]
    exact hnd
  have hmap := decision_map_foldl_get (simple_evaluate works theme relation)
    [] i hlen hmapid
  rw [hgi] at hmap
  have hfdw : fd.work = w := by rw [hfd']
  show (List.map _ works)[i]? = _
  rw [List.getElem?_map, hw]
  show some _ = _
  congr 1
  simp only [herr]
  rw [show fd.work.openalex_id = w.openalex_id from by rw [hfdw]] at hmap
  rw [hmap]

/-- The heuristic decision for `sample_themed` under theme
`machine learning`. -/
def fallback_themed : WorkDecision :=
  ⟨sample_themed, .accepted,
    "Matches theme keyword " ++ squote ++ "learning" ++ squote ++ " in title",
    .reference, ""⟩

/-- Witness for `c7_llm_fallback`: an LLM that fails on every attempt
yields the heuristic verdict (here: accepted on a title keyword match) with
the fallback noted in the justification. -/
theorem c7_llm_fallback_witness :
    (llm_evaluate (fun _ => Except.error "boom") [sample_themed]
        "machine learning" Relation.reference)[0]?
      = some ⟨sample_themed, Verdict.accepted,
          "Fallback to heuristic: " ++ fallback_themed.justification
            ++ " (LLM error: " ++ "boom" ++ ")", Relation.reference, ""⟩ := by
  have h := c7_llm_fallback (fun _ => Except.error "boom") [sample_themed]
    "machine learning" Relation.reference 0 "boom" sample_themed fallback_themed
    (by decide) (by decide) (by decide) rfl
  exact h.trans (by decide)

/-! ### C1 and C2 -/

theorem PyDict.mem_keys_of_get? {κ α : Type} [DecidableEq κ]
    {d : PyDict κ α} {k : κ} {v : α} (h : d.get? k = some v) : k ∈ d.keys := by
  induction d with
  | nil => exact absurd h (by simp [PyDict.get?])
  | cons p d ih =>
    obtain ⟨k₀, v₀⟩ := p
    rw [PyDict.keys_cons, List.mem_cons]
    by_cases h₀ : k₀ = k
    · exact Or.inl h₀.symm
    · rw [show PyDict.get? ((k₀, v₀) :: d) k = PyDict.get? d k from by
        simp [PyDict.get?, h₀]] at h
      exact Or.inr (ih h)

/-- Run-index keys and run-file names are duplicate-free; true of every
state the repository itself writes, and preserved by `save_run`. -/
def state_wf (s : ProjectDirState) : Prop :=
  (∀ m, s.manifest = some m → m.runs.keys.Nodup) ∧ s.run_files.keys.Nodup

/-- The premise of claim C1: no manifest yet, or the stored theme equals
the incoming result's theme. -/
def theme_compatible (s : ProjectDirState) (theme : String) : Prop :=
  s.manifest = none ∨ ∃ m, s.manifest = some m ∧ m.theme = theme

/-- The manifest run-index entry `save_run` writes for a result. -/
def manifest_entry (r : OpenAlexResearchResult) (now : String) : RunEntry :=
  ⟨r.seed.openalex_id, "runs/" ++ run_filename r, now⟩

/-- The run file payload `save_run` writes for a result. -/
def run_payload_of (r : OpenAlexResearchResult) (project now : String) : RunPayload :=
  ⟨r, project, slugify project, now⟩

/-- The manifest after `save_run` records a result against `base`. -/
def manifest_after (base : Manifest) (r : OpenAlexResearchResult) (now : String) :
    Manifest :=
  { base with runs := base.runs.insert r.seed.openalex_id (manifest_entry r now) }

theorem save_run_ok (s : ProjectDirState) (project : String)
    (r : OpenAlexResearchResult) (now : String) (base : Manifest)
    (hbase : (s.manifest = none ∧ base = ⟨project, slugify project, r.theme, []⟩)
        ∨ (s.manifest = some base ∧ ¬(base.theme ≠ "" ∧ base.theme ≠ r.theme))) :
    save_run s project r now
      = (⟨some (manifest_after base r now),
          s.run_files.insert (run_filename r) (run_payload_of r project now)⟩,
        Except.ok ("runs/" ++ run_filename r)) := by
  rcases hbase with ⟨hnone, hb⟩ | ⟨hsome, hcond⟩
  · subst hb
    simp [save_run, hnone, manifest_after, manifest_entry, run_payload_of]
  · simp [save_run, hsome, hcond, manifest_after, manifest_entry, run_payload_of]

/-- Claim C1, confirmed (with the run-payload serialization modelled from
the spec): when no manifest exists or the stored theme matches, `save_run`
writes `runs/<sanitized seed id>.json` holding the full result plus project
identity and the generation timestamp, writes/overwrites the manifest's
runs entry for the seed id with that relative path and a fresh timestamp,
and returns the run path; a second save with the same seed id overwrites
both, leaving exactly one runs entry and one run file for that seed. -/
theorem c1_save_run (s : ProjectDirState) (project : String)
    (r₁ r₂ : OpenAlexResearchResult) (now₁ now₂ : String)
    (hwf : state_wf s) (hok : theme_compatible s r₁.theme) :
    ∃ s₁ m₁,
      save_run s project r₁ now₁ = (s₁, Except.ok ("runs/" ++ run_filename r₁))
      ∧ s₁.manifest = some m₁
      ∧ s₁.run_files.get? (run_filename r₁) = some (run_payload_of r₁ project now₁)
      ∧ m₁.runs.get? r₁.seed.openalex_id = some (manifest_entry r₁ now₁)
      ∧ (r₂.seed.openalex_id = r₁.seed.openalex_id → r₂.theme = m₁.theme →
          ∃ s₂ m₂,
            save_run s₁ project r₂ now₂
                = (s₂, Except.ok ("runs/" ++ run_filename r₂))
            ∧ s₂.manifest = some m₂
            ∧ m₂.runs.keys = m₁.runs.keys
            ∧ s₂.run_files.keys = s₁.run_files.keys
            ∧ m₂.runs.keys.count r₂.seed.openalex_id = 1
            ∧ s₂.run_files.keys.count (run_filename r₂) = 1
            ∧ m₂.runs.get? r₂.seed.openalex_id = some (manifest_entry r₂ now₂)
            ∧ s₂.run_files.get? (run_filename r₂)
                = some (run_payload_of r₂ project now₂)) := by
  obtain ⟨base, hbase, hbase_nodup⟩ :
      ∃ base : Manifest,
        ((s.manifest = none ∧ base = ⟨project, slugify project, r₁.theme, []⟩)
          ∨ (s.manifest = some base ∧ ¬(base.theme ≠ "" ∧ base.theme ≠ r₁.theme)))
        ∧ base.runs.keys.Nodup := by
    rcases hok with hnone | ⟨m, hsome, hteq⟩
    · refine ⟨⟨project, slugify project, r₁.theme, []⟩, Or.inl ⟨hnone, rfl⟩, ?_⟩
      simp [PyDict.keys]
    · exact ⟨m, Or.inr ⟨hsome, fun hc => hc.2 hteq⟩, hwf.1 m hsome⟩
  have h1 := save_run_ok s project r₁ now₁ base hbase
  refine ⟨_, manifest_after base r₁ now₁, h1, rfl,
    PyDict.get?_insert_self _ _ _, PyDict.get?_insert_self _ _ _, ?_⟩
  intro hseed hteme₂
  have hm₁nodup : (manifest_after base r₁ now₁).runs.keys.Nodup :=
    PyDict.keys_nodup_insert _ _ _ hbase_nodup
  have hfiles₁nodup :
      (s.run_files.insert (run_filename r₁) (run_payload_of r₁ project now₁)).keys.Nodup :=
    PyDict.keys_nodup_insert _ _ _ hwf.2
  have h2 := save_run_ok
    ⟨some (manifest_after base r₁ now₁),
      s.run_files.insert (run_filename r₁) (run_payload_of r₁ project now₁)⟩
    project r₂ now₂ (manifest_after base r₁ now₁)
    (Or.inr ⟨rfl, fun hc => hc.2 hteme₂.symm⟩)
  have hfn : run_filename r₂ = run_filename r₁ := by
    rw [run_filename, run_filename, hseed]
  have hseed_mem : r₂.seed.openalex_id ∈ (manifest_after base r₁ now₁).runs.keys := by
    rw [hseed]
    exact PyDict.mem_keys_of_get? (PyDict.get?_insert_self _ _ _)
  have hfn_mem : run_filename r₂
      ∈ (s.run_files.insert (run_filename r₁) (run_payload_of r₁ project now₁)).keys := by
    rw [hfn]
    exact PyDict.mem_keys_of_get? (PyDict.get?_insert_self _ _ _)
  refine ⟨_, manifest_after (manifest_after base r₁ now₁) r₂ now₂, h2, rfl,
    PyDict.keys_insert_of_mem _ _ _ hseed_mem,
    PyDict.keys_insert_of_mem _ _ _ hfn_mem, ?_, ?_,
    PyDict.get?_insert_self _ _ _, PyDict.get?_insert_self _ _ _⟩
  · rw [show (manifest_after (manifest_after base r₁ now₁) r₂ now₂).runs.keys
        = (manifest_after base r₁ now₁).runs.keys from
      PyDict.keys_insert_of_mem _ _ _ hseed_mem]
    exact List.count_eq_one_of_mem hm₁nodup hseed_mem
  · rw [show ((s.run_files.insert (run_filename r₁) (run_payload_of r₁ project now₁)).insert
          (run_filename r₂) (run_payload_of r₂ project now₂)).keys
        = (s.run_files.insert (run_filename r₁) (run_payload_of r₁ project now₁)).keys from
      PyDict.keys_insert_of_mem _ _ _ hfn_mem]
    exact List.count_eq_one_of_mem hfiles₁nodup hfn_mem

/-- A run result with theme `ml` and seed `W1`. -/
def sample_result1 : OpenAlexResearchResult :=
  ⟨sample_smith, "ml", [], [], ⟨"k", [], []⟩⟩

/-- A second run result with theme `ml` and the same seed `W1`. -/
def sample_result2 : OpenAlexResearchResult :=
  ⟨sample_smith, "ml", [], [], ⟨"k2", [], []⟩⟩

/-- A run result with the EMPTY theme and seed `W1`. -/
def sample_result_empty_theme : OpenAlexResearchResult :=
  ⟨sample_smith, "", [], [], ⟨"k", [], []⟩⟩

/-- A run result with theme `ml` and seed `W2`. -/
def sample_result_ml : OpenAlexResearchResult :=
  ⟨sample_smith2, "ml", [], [], ⟨"k2", [], []⟩⟩

/-- Witness for `c1_save_run`: saving twice under one project with the same
seed id, starting from an empty project directory. -/
theorem c1_save_run_witness :
    ∃ s₁ m₁,
      save_run ⟨none, []⟩ "My Project" sample_result1 "T1"
          = (s₁, Except.ok ("runs/" ++ run_filename sample_result1))
      ∧ s₁.manifest = some m₁
      ∧ s₁.run_files.get? (run_filename sample_result1)
          = some (run_payload_of sample_result1 "My Project" "T1")
      ∧ m₁.runs.get? sample_result1.seed.openalex_id
          = some (manifest_entry sample_result1 "T1")
      ∧ (sample_result2.seed.openalex_id = sample_result1.seed.openalex_id →
          sample_result2.theme = m₁.theme →
          ∃ s₂ m₂,
            save_run s₁ "My Project" sample_result2 "T2"
                = (s₂, Except.ok ("runs/" ++ run_filename sample_result2))
            ∧ s₂.manifest = some m₂
            ∧ m₂.runs.keys = m₁.runs.keys
            ∧ s₂.run_files.keys = s₁.run_files.keys
            ∧ m₂.runs.keys.count sample_result2.seed.openalex_id = 1
            ∧ s₂.run_files.keys.count (run_filename sample_result2) = 1
            ∧ m₂.runs.get? sample_result2.seed.openalex_id
                = some (manifest_entry sample_result2 "T2")
            ∧ s₂.run_files.get? (run_filename sample_result2)
                = some (run_payload_of sample_result2 "My Project" "T2")) :=
  c1_save_run ⟨none, []⟩ "My Project" sample_result1 sample_result2 "T1" "T2"
    (by constructor
        · intro m h; exact absurd h (by simp)
        · simp [PyDict.keys])
    (Or.inl rfl)

/-- A manifest stored with a non-empty theme. -/
def sample_manifest : Manifest := ⟨"Thesis", "thesis", "graph theory", []⟩

/-- Claim C2, corrected: the failure fires only when the stored theme is
NON-EMPTY and differs from the incoming theme (the code tests Python
truthiness, `if stored_theme and stored_theme != result.theme`); when it
fires, the state is returned unchanged — no run file is written and the
manifest is untouched. -/
theorem c2_theme_mismatch (s : ProjectDirState) (project : String)
    (r : OpenAlexResearchResult) (now : String) (m : Manifest)
    (hm : s.manifest = some m) (hne : m.theme ≠ "") (hdiff : m.theme ≠ r.theme) :
    save_run s project r now
      = (s, Except.error (theme_mismatch_message m.theme r.theme)) := by
  simp [save_run, hm, hne, hdiff]

/-- Counterexample to claim C2 as stated: a manifest created by a first run
with the EMPTY theme; a second run under a different theme differs from the
stored theme yet raises nothing, and the manifest gains the new runs
entry. -/
theorem c2_theme_mismatch_counterexample :
    ((save_run ⟨none, []⟩ "p" sample_result_empty_theme "T1").1.manifest).map
        Manifest.theme = some ""
    ∧ sample_result_ml.theme ≠ ""
    ∧ (save_run (save_run ⟨none, []⟩ "p" sample_result_empty_theme "T1").1
          "p" sample_result_ml "T2").2 = Except.ok "runs/W2.json"
    ∧ ((save_run (save_run ⟨none, []⟩ "p" sample_result_empty_theme "T1").1
          "p" sample_result_ml "T2").1.manifest).map (fun m => m.runs.keys)
        = some ["W1", "W2"] := by
  refine ⟨by decide, by decide, by rfl, by decide⟩

/-- Witness for `c2_theme_mismatch` at a stored theme `graph theory` and an
incoming theme `ml`. -/
theorem c2_theme_mismatch_witness :
    save_run ⟨some sample_manifest, []⟩ "Thesis" sample_result_ml "T"
      = (⟨some sample_manifest, []⟩,
        Except.error (theme_mismatch_message sample_manifest.theme
          sample_result_ml.theme)) :=
  c2_theme_mismatch ⟨some sample_manifest, []⟩ "Thesis" sample_result_ml "T"
    sample_manifest rfl (by decide) (by decide)
